import Mathlib

/-!
Shallow embedding of the worker-pool controller in `src/src/boss/cloudvm/worker.go`
(package `boss` of open-lambda's boss/cloudvm module).

Modelling conventions:
* Worker ids are natural numbers (the Go code mints them from the integer
  `pool.nextId`; the platform adapter that renders them as strings is not in
  scope, so the id itself stands for the rendered `workerId` and is printed
  with `Nat.repr` where the Go code prints the string).
* The four Go maps `pool.workers[STARTING..DESTROYING]` become four key lists
  (`starting`, `running`, `cleaning`, `destroying`); map insert is
  `insertKey` (no duplicate keys), map delete is `removeKey`, and map
  iteration visits keys in list order, skipping keys that have been deleted
  since the loop started — one of the behaviours the Go specification allows.
* Worker records live in a single association list `heap` keyed by id, so the
  aliasing of one `*Worker` from several maps and the queue is explicit.
* The buffered channel `pool.queue` is the list `queue`; receiving from an
  empty channel blocks, which the functions model by returning `none`.
* `int`/`int32`/`int64` counters are `Int` (no claim depends on wrap-around:
  every dispatch pairs one increment with one decrement).
* The recursion `updateCluster → recoverWorker → updateCluster` is given a
  fuel parameter; `none` means fuel ran out or a channel receive blocked.
-/

namespace OpenLambda

/-- Go `WorkerState` enum: STARTING, RUNNING, CLEANING, DESTROYING. -/
inductive WorkerState where
  | STARTING
  | RUNNING
  | CLEANING
  | DESTROYING
deriving DecidableEq, Repr

open WorkerState

/-- Per-worker record (Go `Worker`), minus the id which keys the heap. -/
structure Worker where
  workerIp : String
  numTask : Int
  state : WorkerState
deriving DecidableEq, Repr

/-- The pool together with the package-level counters of `worker.go`
(`totalTask`, `sumLatency`, `nLatency`). -/
structure WorkerPool where
  nextId : Nat
  target : Int
  starting : List Nat
  running : List Nat
  cleaning : List Nat
  destroying : List Nat
  queue : List Nat
  heap : List (Nat × Worker)
  totalTask : Int
  sumLatency : Int
  nLatency : Int
deriving DecidableEq, Repr

/-- Go map insert `m[k] = v` on the key set: adds the key if absent. -/
def insertKey (k : Nat) (l : List Nat) : List Nat :=
  if k ∈ l then l else l ++ [k]

/-- Go map delete `delete(m, k)` on the key set. -/
def removeKey (k : Nat) (l : List Nat) : List Nat :=
  l.filter (fun x => x ≠ k)

/-- Update the record of worker `id` in the heap (Go mutates through the
shared `*Worker` pointer). -/
def setWorker (id : Nat) (f : Worker → Worker) (h : List (Nat × Worker)) :
    List (Nat × Worker) :=
  h.map (fun kv => if kv.1 = id then (kv.1, f kv.2) else kv)

/-- Go `pool.Size()`: total workers across the four state maps. -/
def size (st : WorkerPool) : Nat :=
  st.starting.length + st.running.length + st.cleaning.length +
    st.destroying.length

/-- Synchronous part of `startNewWorker`: mint `nextId`, build the worker in
state STARTING, insert it into the Starting map.  (The goroutine that later
provisions the instance and moves it to Running is a separate task, not part
of the reconciliation pass.) -/
def startOne (st : WorkerPool) : WorkerPool :=
  { st with
    nextId := st.nextId + 1
    starting := insertKey st.nextId st.starting
    heap := st.heap ++ [(st.nextId, ⟨"", 0, STARTING⟩)] }

/-- The `for i := 0; i < scaleSize; i++ { pool.startNewWorker() }` loop. -/
def startN : Nat → WorkerPool → WorkerPool
  | 0, st => st
  | n + 1, st => startN n (startOne st)

/-- Synchronous part of `cleanWorker`: set the state to CLEANING and move the
map entry Running → Cleaning.  (The drain goroutine is `drainTask` below.) -/
def cleanMove (w : Nat) (st : WorkerPool) : WorkerPool :=
  { st with
    heap := setWorker w (fun r => { r with state := CLEANING }) st.heap
    running := removeKey w st.running
    cleaning := insertKey w st.cleaning }

/-- The stage-2 loop of `updateCluster`: receive `n` workers from the queue
and clean each.  A receive from an empty channel blocks (`none`). -/
def cleanN : Nat → WorkerPool → Option WorkerPool
  | 0, st => some st
  | n + 1, st =>
    match st.queue with
    | [] => none
    | w :: rest => cleanN n (cleanMove w { st with queue := rest })

/-- Map-mutation part of `recoverWorker`: set the state to RUNNING and move
the map entry Cleaning → Running.  Note: the source does NOT send the worker
back on `pool.queue` here (contrast `startNewWorker`, line 181). -/
def recoverMove (w : Nat) (st : WorkerPool) : WorkerPool :=
  { st with
    heap := setWorker w (fun r => { r with state := RUNNING }) st.heap
    cleaning := removeKey w st.cleaning
    running := insertKey w st.running }

/-- Go `scaleSize := pool.target - pool.Size()` (worker.go:284). -/
def scaleSizeOf (st : WorkerPool) : Int := st.target - (size st : Int)

/-- Go `toBeClean` (worker.go:295). -/
def toBeCleanOf (st : WorkerPool) : Int :=
  -1 * scaleSizeOf st - (st.cleaning.length : Int) -
    (st.destroying.length : Int) - (st.starting.length : Int)

/-- Go `toBeRecover` (worker.go:310). -/
def toBeRecoverOf (st : WorkerPool) : Int :=
  st.target - (st.starting.length : Int) - (st.running.length : Int)

mutual

/-- Go `updateCluster` (worker.go:283-326).  Stage 1 starts `scaleSize` workers
when under target; stage 2 cleans `toBeClean` workers dequeued from the
ready-queue and recurses; stage 3 recovers up to `toBeRecover` workers from
Cleaning (each recovery itself recursing via `recoverWorker`). -/
def updateCluster : Nat → WorkerPool → Option WorkerPool
  | 0, _ => none
  | Nat.succ fuel, st =>
    if 0 < scaleSizeOf st then
      some (startN (scaleSizeOf st).toNat st)
    else
      if 0 < toBeCleanOf st then
        match cleanN (toBeCleanOf st).toNat st with
        | none => none
        | some st1 => updateCluster fuel st1
      else
        if 0 < toBeRecoverOf st then
          recoverLoop fuel st.cleaning (toBeRecoverOf st) st
        else some st

/-- The stage-3 `for _, worker := range pool.workers[CLEANING]` loop: iterate
the keys of the Cleaning map as of loop entry; a key deleted meanwhile is not
produced; for a produced key, break when `toBeRecover <= 0`, otherwise run
`recoverWorker` (move the entry and recurse into `updateCluster`) and then
decrement `toBeRecover`. -/
def recoverLoop : Nat → List Nat → Int → WorkerPool → Option WorkerPool
  | 0, _, _, _ => none
  | Nat.succ _, [], _, st => some st
  | Nat.succ fuel, k :: ks, r, st =>
    if k ∈ st.cleaning then
      if r ≤ 0 then some st
      else
        match updateCluster fuel (recoverMove k st) with
        | none => none
        | some st1 => recoverLoop fuel ks (r - 1) st1
    else recoverLoop fuel ks r st

end

/-- Go `SetTarget` (worker.go:129-138): store the target, then reconcile. -/
def SetTarget (target : Int) (fuel : Nat) (st : WorkerPool) :
    Option WorkerPool :=
  updateCluster fuel { st with target := target }

/-- Modelled from the spec: the threshold auto-scaling policy
(`ScalingThreshold.Scale`, invoked as `pool.Scale(pool)` at worker.go:347) is
not among the source files; per spec section 4.E its whole effect is to
output a new target which is passed to the pool, so it is modelled as
`SetTarget` at an arbitrary chosen target. -/
def Scale (newTarget : Int) (fuel : Nat) (st : WorkerPool) :
    Option WorkerPool :=
  SetTarget newTarget fuel st

/-- One write on the `http.ResponseWriter`: either `WriteHeader(code)` or a
body `Write`. -/
inductive RespEvent where
  | header (code : Nat)
  | body (s : String)
deriving DecidableEq, Repr

/-- The status the client observes: the first `WriteHeader` wins; a body
write before any header implies status 200 (Go `net/http` semantics). -/
def effectiveStatus : List RespEvent → Option Nat
  | [] => none
  | RespEvent.header c :: _ => some c
  | RespEvent.body _ :: _ => some 200

/-- Worker selection in `RunLambda` (worker.go:342-343): receive a worker
from the queue, immediately re-send it to the tail.  `none` when the receive
would block. -/
def dispatchSelect : List Nat → Option (Nat × List Nat)
  | [] => none
  | w :: rest => some (w, rest ++ [w])

/-- Go `forwardTask` (worker.go:376-394): build the host `ip:5000` and forward.
The network outcome is an input: `Except.error msg` makes `client.Do` fail,
upon which `http.Error` writes a 502 header and `msg` plus a newline;
`Except.ok b` streams the remote body `b` back.  Returns the response events
and the host the request was directed at. -/
def forwardTask (fwd : Except String String) (workerIp : String) :
    List RespEvent × String :=
  let host := workerIp ++ ":5000"
  match fwd with
  | Except.error msg => ([RespEvent.header 502, RespEvent.body (msg ++ "\n")], host)
  | Except.ok b => ([RespEvent.body b], host)

/-- Adjust `worker.numTask` by `d` (the `atomic.AddInt32` calls). -/
def addTask (w : Nat) (d : Int) (st : WorkerPool) : WorkerPool :=
  { st with heap := setWorker w (fun r => { r with numTask := r.numTask + d }) st.heap }

/-- Go `RunLambda` (worker.go:329-367).  Inputs beyond the pool state: the
configured platform and scaling mode, the forwarding outcome, the measured
latency of this dispatch, the target the (spec-modelled) scaling policy
would choose, and fuel for the nested reconciliation.  Output: the response
events, the host forwarded to (`none` when nothing was forwarded), and the
final state; `none` when a queue receive blocks or fuel runs out. -/
def runLambda (platform scaling : String) (fwd : Except String String)
    (latency newTarget : Int) (fuel : Nat) (st : WorkerPool) :
    Option (List RespEvent × Option String × WorkerPool) :=
  let noActive := st.starting.length + st.running.length == 0
  let ev0 : List RespEvent := if noActive then [RespEvent.header 500] else []
  if noActive && (scaling == "manual") then
    some (ev0 ++ [RespEvent.body "no active worker\n"], none, st)
  else
    match dispatchSelect st.queue with
    | none => none
    | some (w, q) =>
      let st1 := addTask w 1 { st with queue := q }
      let st2 := { st1 with totalTask := st1.totalTask + 1 }
      let afterScale := if scaling == "auto" then Scale newTarget fuel st2
        else some st2
      match afterScale with
      | none => none
      | some st3 =>
        let ipOf : String := ((st3.heap.lookup w).getD ⟨"", 0, RUNNING⟩).workerIp
        let evFwd : List RespEvent × Option String :=
          if platform == "mock" then
            ([RespEvent.header 200,
              RespEvent.body ("hello from " ++ Nat.repr w ++ "\n")], none)
          else
            let p := forwardTask fwd ipOf
            (p.1, some p.2)
        let st4 := addTask w (-1) st3
        let st5 := { st4 with totalTask := st4.totalTask - 1 }
        some (ev0 ++ evFwd.1, evFwd.2,
          { st5 with sumLatency := st5.sumLatency + latency,
                     nLatency := st5.nLatency + 1 })

/-- Outcome of the drain goroutine spawned by `cleanWorker`
(worker.go:229-241). -/
inductive DrainOutcome where
  | destroyed
  | exited
deriving DecidableEq, Repr

/-- The drain goroutine of `cleanWorker`, as a function of the sequence of
observations it makes: at each loop iteration it reads `worker.numTask` and
then, only if that is positive, whether the worker is still in the Cleaning
map.  `n > 0` and still present: sleep and loop.  `n > 0` and absent
(recovered): return without transitioning.  `n ≤ 0`: the loop exits and
`detroyWorker` runs, with no membership check at that point.  `none` means
the observation list ended with the loop still running. -/
def drainTask : List (Int × Bool) → Option DrainOutcome
  | [] => none
  | (n, inCleaning) :: rest =>
    if 0 < n then
      if inCleaning then drainTask rest else some DrainOutcome.exited
    else some DrainOutcome.destroyed

/-- The `numTask` of worker `id` as read through the heap (0 for a dangling id,
which cannot occur in well-formed states). -/
def taskOf (st : WorkerPool) (id : Nat) : Int :=
  ((st.heap.lookup id).getD ⟨"", 0, RUNNING⟩).numTask

/-- Association-list image of the Go string-keyed map built by `StatusTasks`:
insert overwrites an existing key. -/
def upsert (k : Nat) (v : Int) : List (Nat × Int) → List (Nat × Int)
  | [] => [(k, v)]
  | (k1, v1) :: t => if k1 = k then (k, v) :: t else (k1, v1) :: upsert k v t

/-- Result of `StatusTasks` (worker.go:428-449): the two special entries
`"task/worker"` and `"total tasks"` as named fields, and one entry per
worker id found in any of the four maps. -/
structure TaskStatus where
  taskPerWorker : Int
  totalTasks : Int
  perWorker : List (Nat × Int)
deriving DecidableEq, Repr

/-- Go `StatusTasks` (worker.go:428-449): `task/worker` starts at 0; when
`numWorker = |Running|+|Starting| > 0` it becomes the sum of `numTask` over
the Running map divided by `numWorker` (Go `int` division, i.e. truncation
toward zero); then every worker id of every map is written with its
`numTask`. -/
def StatusTasks (st : WorkerPool) : TaskStatus :=
  let numWorker := st.running.length + st.starting.length
  let tpw : Int :=
    if 0 < numWorker then
      Int.tdiv (st.running.foldl (fun a id => a + taskOf st id) 0) (numWorker : Int)
    else 0
  { taskPerWorker := tpw
    totalTasks := st.totalTask
    perWorker :=
      (st.starting ++ st.running ++ st.cleaning ++ st.destroying).foldl
        (fun acc id => upsert id (taskOf st id) acc) [] }


/-! ## Helper lemmas: lookups, heap updates, counter preservation -/

theorem lookup_cons_eq {β : Type} (k : Nat) (v : β) (t : List (Nat × β)) :
    ((k, v) :: t).lookup k = some v := by simp [List.lookup]

theorem lookup_cons_ne {β : Type} {id k : Nat} (h : id ≠ k) (v : β)
    (t : List (Nat × β)) : ((k, v) :: t).lookup id = t.lookup id := by
  rw [show ((k, v) :: t).lookup id = match id == k with
    | true => some v
    | false => t.lookup id from rfl]
  rw [show (id == k) = false by simpa using h]

theorem lookup_append_some {β : Type} {h : List (Nat × β)} {id : Nat} {v : β}
    (hl : h.lookup id = some v) (t : List (Nat × β)) :
    (h ++ t).lookup id = some v := by
  induction h with
  | nil => simp [List.lookup] at hl
  | cons kv h ih =>
    obtain ⟨k, w⟩ := kv
    rw [List.cons_append]
    by_cases hik : id = k
    · subst hik
      rw [lookup_cons_eq] at hl
      rw [lookup_cons_eq, hl]
    · rw [lookup_cons_ne hik] at hl
      rw [lookup_cons_ne hik]
      exact ih hl

theorem setWorker_cons (j : Nat) (f : Worker → Worker) (k : Nat) (v : Worker)
    (t : List (Nat × Worker)) :
    setWorker j f ((k, v) :: t) =
      (if k = j then (k, f v) else (k, v)) :: setWorker j f t := by
  by_cases hkj : k = j <;> simp [setWorker, hkj]

theorem setWorker_lookup (j : Nat) (f : Worker → Worker)
    (h : List (Nat × Worker)) (id : Nat) :
    (setWorker j f h).lookup id =
      (h.lookup id).map (fun r => if id = j then f r else r) := by
  induction h with
  | nil => simp [setWorker, List.lookup]
  | cons kv t ih =>
    obtain ⟨k, v⟩ := kv
    rw [setWorker_cons]
    by_cases hkj : k = j
    · rw [if_pos hkj]
      subst hkj
      by_cases hik : id = k
      · subst hik
        rw [lookup_cons_eq, lookup_cons_eq]
        simp
      · rw [lookup_cons_ne hik, lookup_cons_ne hik, ih]
    · rw [if_neg hkj]
      by_cases hik : id = k
      · subst hik
        rw [lookup_cons_eq, lookup_cons_eq]
        simp [hkj]
      · rw [lookup_cons_ne hik, lookup_cons_ne hik, ih]

/-- Counter preservation: a state change that keeps the global task/latency
counters and every existing worker's `numTask`. -/
def Pres (st st' : WorkerPool) : Prop :=
  st'.totalTask = st.totalTask ∧ st'.sumLatency = st.sumLatency ∧
  st'.nLatency = st.nLatency ∧
  ∀ id w, st.heap.lookup id = some w →
    ∃ w', st'.heap.lookup id = some w' ∧ w'.numTask = w.numTask

theorem presRefl (st : WorkerPool) : Pres st st :=
  ⟨rfl, rfl, rfl, fun _ w hw => ⟨w, hw, rfl⟩⟩

theorem presTrans {s t u : WorkerPool} (h1 : Pres s t) (h2 : Pres t u) :
    Pres s u := by
  obtain ⟨a1, b1, c1, d1⟩ := h1
  obtain ⟨a2, b2, c2, d2⟩ := h2
  refine ⟨a2.trans a1, b2.trans b1, c2.trans c1, fun id w hw => ?_⟩
  obtain ⟨w1, hw1, he1⟩ := d1 id w hw
  obtain ⟨w2, hw2, he2⟩ := d2 id w1 hw1
  exact ⟨w2, hw2, he2.trans he1⟩

theorem presStartOne (st : WorkerPool) : Pres st (startOne st) :=
  ⟨rfl, rfl, rfl, fun _ w hw => ⟨w, lookup_append_some hw _, rfl⟩⟩

theorem presCleanMove (w : Nat) (st : WorkerPool) :
    Pres st (cleanMove w st) := by
  refine ⟨rfl, rfl, rfl, fun id r hw => ?_⟩
  refine ⟨if id = w then { r with state := CLEANING } else r, ?_, ?_⟩
  · simp only [cleanMove]
    rw [setWorker_lookup, hw, Option.map_some']
  · by_cases hiw : id = w <;> simp [hiw]

theorem presRecoverMove (w : Nat) (st : WorkerPool) :
    Pres st (recoverMove w st) := by
  refine ⟨rfl, rfl, rfl, fun id r hw => ?_⟩
  refine ⟨if id = w then { r with state := RUNNING } else r, ?_, ?_⟩
  · simp only [recoverMove]
    rw [setWorker_lookup, hw, Option.map_some']
  · by_cases hiw : id = w <;> simp [hiw]

theorem presQueueSet (st : WorkerPool) (q : List Nat) :
    Pres st { st with queue := q } :=
  ⟨rfl, rfl, rfl, fun _ w hw => ⟨w, hw, rfl⟩⟩

theorem presTargetSet (st : WorkerPool) (t : Int) :
    Pres st { st with target := t } :=
  ⟨rfl, rfl, rfl, fun _ w hw => ⟨w, hw, rfl⟩⟩

theorem presStartN : ∀ (n : Nat) (st : WorkerPool), Pres st (startN n st)
  | 0, st => presRefl st
  | n + 1, st => presTrans (presStartOne st) (presStartN n (startOne st))

theorem presCleanN : ∀ {n : Nat} {st st' : WorkerPool},
    cleanN n st = some st' → Pres st st' := by
  intro n
  induction n with
  | zero =>
    intro st st' h
    simp only [cleanN, Option.some.injEq] at h
    exact h ▸ presRefl st
  | succ n ih =>
    intro st st' h
    simp only [cleanN] at h
    cases hq : st.queue with
    | nil => rw [hq] at h; exact absurd h (by simp)
    | cons w rest =>
      rw [hq] at h
      exact presTrans (presTrans (presQueueSet st rest)
        (presCleanMove w { st with queue := rest })) (ih h)

theorem presUpdateClusterRecoverLoop : ∀ fuel : Nat,
    (∀ st st', updateCluster fuel st = some st' → Pres st st') ∧
    (∀ ks r st st', recoverLoop fuel ks r st = some st' → Pres st st') := by
  intro fuel
  induction fuel with
  | zero =>
    constructor
    · intro st st' h
      rw [show updateCluster 0 st = none from rfl] at h
      exact Option.noConfusion h
    · intro ks r st st' h
      rw [show recoverLoop 0 ks r st = none from rfl] at h
      exact Option.noConfusion h
  | succ fuel ih =>
    obtain ⟨ihU, ihR⟩ := ih
    constructor
    · intro st st' h
      simp only [updateCluster] at h
      split at h
      · simp only [Option.some.injEq] at h
        exact h ▸ presStartN _ st
      · split at h
        · split at h
          · exact absurd h (by simp)
          · rename_i st1 hclean
            exact presTrans (presCleanN hclean) (ihU st1 st' h)
        · split at h
          · exact ihR _ _ _ _ h
          · simp only [Option.some.injEq] at h
            exact h ▸ presRefl st
    · intro ks r st st' h
      cases ks with
      | nil =>
        rw [show recoverLoop (fuel + 1) [] r st = some st from rfl] at h
        simp only [Option.some.injEq] at h
        exact h ▸ presRefl st
      | cons k ks =>
        simp only [recoverLoop] at h
        split at h
        · split at h
          · simp only [Option.some.injEq] at h
            exact h ▸ presRefl st
          · split at h
            · exact absurd h (by simp)
            · rename_i st1 hup
              exact presTrans (presTrans (presRecoverMove k st)
                (ihU _ st1 hup)) (ihR ks (r - 1) st1 st' h)
        · exact ihR ks r st st' h

theorem presUpdateCluster {fuel : Nat} {st st' : WorkerPool}
    (h : updateCluster fuel st = some st') : Pres st st' :=
  (presUpdateClusterRecoverLoop fuel).1 st st' h

theorem presScale {t : Int} {fuel : Nat} {st st' : WorkerPool}
    (h : Scale t fuel st = some st') : Pres st st' :=
  presTrans (presTargetSet st t) (presUpdateCluster h)

theorem addTask_lookup (w : Nat) (d : Int) (st : WorkerPool) (id : Nat) :
    (addTask w d st).heap.lookup id =
      (st.heap.lookup id).map
        (fun r => if id = w then { r with numTask := r.numTask + d } else r) := by
  simp only [addTask]
  rw [setWorker_lookup]

/-- The dispatch body of `RunLambda` after worker selection preserves the
task counters: both branches of `afterScale` give a `Pres` step. -/
theorem runLambda_pres_afterScale {scaling : String} {newTarget : Int}
    {fuel : Nat} {st2 st3 : WorkerPool}
    (h : (if (scaling == "auto") = true then Scale newTarget fuel st2
      else some st2) = some st3) : Pres st2 st3 := by
  split at h
  · exact presScale h
  · simp only [Option.some.injEq] at h
    exact h ▸ presRefl st2

theorem runLambdaCountersAux
    (platform scaling : String) (fwd : Except String String)
    (latency newTarget : Int) (fuel : Nat) (st : WorkerPool)
    (evs : List RespEvent) (fwdHost : Option String) (st' : WorkerPool)
    (h : runLambda platform scaling fwd latency newTarget fuel st =
      some (evs, fwdHost, st')) :
    st'.totalTask = st.totalTask ∧
    ∀ id w, st.heap.lookup id = some w →
      ∃ w', st'.heap.lookup id = some w' ∧ w'.numTask = w.numTask := by
  simp only [runLambda] at h
  split at h
  · simp only [Option.some.injEq, Prod.mk.injEq] at h
    obtain ⟨-, -, hst⟩ := h
    exact hst ▸ ⟨rfl, fun _ w hw => ⟨w, hw, rfl⟩⟩
  · split at h
    · exact absurd h (by simp)
    · rename_i sel wsel q hsel
      split at h
      · exact absurd h (by simp)
      · rename_i st3 hscale
        have hPres2 : Pres
            { (addTask wsel 1 { st with queue := q }) with
              totalTask :=
                (addTask wsel 1 { st with queue := q }).totalTask + 1 } st3 :=
          runLambda_pres_afterScale hscale
        simp only [Option.some.injEq, Prod.mk.injEq] at h
        obtain ⟨-, -, hst⟩ := h
        subst hst
        constructor
        · have h1 : st3.totalTask =
              (addTask wsel 1 { st with queue := q }).totalTask + 1 :=
            hPres2.1
          have h2 : (addTask wsel 1 { st with queue := q }).totalTask =
              st.totalTask := rfl
          simp only [addTask]
          omega
        · intro id w hw
          have hl1 : (addTask wsel 1 { st with queue := q }).heap.lookup id =
              some (if id = wsel
                then { w with numTask := w.numTask + 1 } else w) := by
            rw [addTask_lookup]
            simp only [show ({ st with queue := q } : WorkerPool).heap =
              st.heap from rfl, hw, Option.map_some']
          obtain ⟨w2, hw2, he2⟩ := hPres2.2.2.2 id _ hl1
          refine ⟨if id = wsel
            then { w2 with numTask := w2.numTask + (-1) } else w2, ?_, ?_⟩
          · show (addTask wsel (-1) st3).heap.lookup id = _
            rw [addTask_lookup, hw2, Option.map_some']
          · by_cases hiw : id = wsel <;> simp [hiw] at he2 ⊢ <;> omega

/-- C1: for every dispatch through `RunLambda` that completes — whatever the
platform, the scaling mode and the forwarding outcome — the global
`totalTask` counter returns to its pre-dispatch value, and every worker
present in the heap (in particular the selected worker) has its `numTask`
back at its pre-dispatch value. -/
theorem runLambda_counters_restored
    (platform scaling : String) (fwd : Except String String)
    (latency newTarget : Int) (fuel : Nat) (st : WorkerPool)
    (evs : List RespEvent) (fwdHost : Option String) (st' : WorkerPool)
    (h : runLambda platform scaling fwd latency newTarget fuel st =
      some (evs, fwdHost, st')) :
    st'.totalTask = st.totalTask ∧
    ∀ id w, st.heap.lookup id = some w →
      ∃ w', st'.heap.lookup id = some w' ∧ w'.numTask = w.numTask :=
  runLambdaCountersAux platform scaling fwd latency newTarget fuel st
    evs fwdHost st' h

/-- Worker and pool used for concrete witnesses: three Running workers each
with two tasks in flight, five tasks in flight globally. -/
def wRun : Worker := ⟨"ip", 2, RUNNING⟩

def poolA : WorkerPool :=
  ⟨4, 1, [], [1, 2, 3], [], [], [1, 2, 3],
    [(1, wRun), (2, wRun), (3, wRun)], 5, 0, 0⟩

def poolAEnd : WorkerPool :=
  ⟨4, 1, [], [1, 2, 3], [], [], [2, 3, 1],
    [(1, wRun), (2, wRun), (3, wRun)], 5, 7, 1⟩

theorem runLambda_counters_restored_witness :
    poolAEnd.totalTask = poolA.totalTask ∧
    ∃ w', poolAEnd.heap.lookup 1 = some w' ∧ w'.numTask = wRun.numTask := by
  have h := runLambda_counters_restored "mock" "manual" (Except.ok "") 7 0 5
    poolA [RespEvent.header 200, RespEvent.body "hello from 1\n"] none
    poolAEnd (by decide)
  exact ⟨h.1, h.2 1 wRun (by decide)⟩

/-- C6 auxiliary: the ids visited by `n` successive dispatches, each using
the selection-and-rotation step of `RunLambda`. -/
def dispatchTrace : Nat → List Nat → List Nat
  | 0, _ => []
  | n + 1, q =>
    match dispatchSelect q with
    | none => []
    | some (w, q1) => w :: dispatchTrace n q1

theorem dispatchSelect_cons (w : Nat) (rest : List Nat) :
    dispatchSelect (w :: rest) = some (w, (w :: rest).rotate 1) := by
  rw [List.rotate_cons_succ, List.rotate_zero]
  rfl

theorem dispatchTrace_getElem? :
    ∀ (n : Nat) (q : List Nat), q ≠ [] → ∀ i, i < n →
      (dispatchTrace n q)[i]? = q[i % q.length]? := by
  intro n
  induction n with
  | zero => intro q hq i hi; omega
  | succ n ih =>
    intro q hq i hi
    obtain ⟨w, rest, rfl⟩ := List.exists_cons_of_ne_nil hq
    rw [show dispatchTrace (n + 1) (w :: rest) =
      w :: dispatchTrace n ((w :: rest).rotate 1) by
        simp [dispatchTrace, dispatchSelect_cons]]
    cases i with
    | zero => simp
    | succ i =>
      have hlen : 0 < (w :: rest).length := by simp
      have hrot : (w :: rest).rotate 1 ≠ [] := by
        simp [List.rotate_eq_nil_iff]
      rw [List.getElem?_cons_succ, ih _ hrot i (by omega),
        List.length_rotate]
      rw [List.getElem?_rotate (Nat.mod_lt _ hlen), Nat.mod_add_mod]

/-- C6: the Dispatcher selects by receiving a worker and immediately
re-sending it to the tail (`dispatchSelect`, used by `runLambda`): the queue
after selection is a permutation (same multiset) of the queue before, namely
its one-step rotation; the selected worker is the head; and `n` successive
dispatches visit the workers in rotation order. -/
theorem dispatchSelect_rotation (q : List Nat) (w : Nat) (q1 : List Nat)
    (h : dispatchSelect q = some (w, q1)) :
    q1.Perm q ∧ q1 = q.rotate 1 ∧ q.head? = some w ∧
    ∀ n i, i < n → (dispatchTrace n q)[i]? = q[i % q.length]? := by
  cases q with
  | nil => exact absurd h (by simp [dispatchSelect])
  | cons a rest =>
    rw [dispatchSelect_cons] at h
    simp only [Option.some.injEq, Prod.mk.injEq] at h
    obtain ⟨rfl, rfl⟩ := h
    exact ⟨List.rotate_perm _ 1, rfl, rfl,
      fun n i hi => dispatchTrace_getElem? n _ (by simp) i hi⟩

theorem dispatchSelect_rotation_witness :
    ([2, 3, 1] : List Nat).Perm [1, 2, 3] ∧
    ([1, 2, 3] : List Nat).head? = some 1 ∧
    (dispatchTrace 5 [1, 2, 3])[4]? = ([1, 2, 3] : List Nat)[4 % 3]? := by
  have h := dispatchSelect_rotation [1, 2, 3] 1 [2, 3, 1] (by rfl)
  exact ⟨h.1, h.2.2.1, h.2.2.2 5 4 (by decide)⟩

/-- C7: a dispatch arriving with `|Starting| + |Running| = 0` in manual
scaling mode answers HTTP 500 with body `no active worker` (plus the
newline the source writes), selects no worker, forwards nothing, and leaves
the pool state untouched. -/
theorem runLambda_manual_no_active_worker
    (platform : String) (fwd : Except String String)
    (latency newTarget : Int) (fuel : Nat) (st : WorkerPool)
    (h0 : st.starting.length + st.running.length = 0) :
    runLambda platform "manual" fwd latency newTarget fuel st =
      some ([RespEvent.header 500, RespEvent.body "no active worker\n"],
        none, st) ∧
    effectiveStatus [RespEvent.header 500,
      RespEvent.body "no active worker\n"] = some 500 := by
  refine ⟨?_, rfl⟩
  simp [runLambda, h0]

/-- Empty pool (no workers anywhere), used for the no-active-worker cases. -/
def poolZero : WorkerPool := ⟨1, 0, [], [], [], [], [], [], 0, 0, 0⟩

theorem runLambda_manual_no_active_worker_witness :
    runLambda "mock" "manual" (Except.ok "") 0 0 1 poolZero =
      some ([RespEvent.header 500, RespEvent.body "no active worker\n"],
        none, poolZero) :=
  (runLambda_manual_no_active_worker "mock" (Except.ok "") 0 0 1 poolZero
    (by decide)).1

/-- C2 counterexample: the drain goroutine observes `numTask = 0` while the
worker is NOT in the Cleaning map (it has been recovered), yet it still
transitions the worker to Destroying — the membership check at
worker.go:233 runs only inside the `numTask > 0` loop body, so recovery is
not detected once the task count reaches zero. -/
theorem drainTask_destroys_despite_recovery :
    drainTask [((0 : Int), false)] = some DrainOutcome.destroyed ∧
    DrainOutcome.destroyed ≠ DrainOutcome.exited :=
  ⟨rfl, by decide⟩

/-- C2 (amended): the drain task transitions the worker Cleaning → Destroying
exactly when it observes `numTask ≤ 0`, after a (possibly empty) run of
observations with positive `numTask` and the worker still in the Cleaning
map — the Cleaning-map membership is NOT re-checked at the moment of
destruction; and it exits without transitioning exactly when, while
`numTask` is still positive, it observes the worker gone from the Cleaning
map (recovered). -/
theorem drainTask_characterization (obs : List (Int × Bool)) :
    (drainTask obs = some DrainOutcome.destroyed ↔
      ∃ pre n c rest, obs = pre ++ (n, c) :: rest ∧
        (∀ p ∈ pre, 0 < p.1 ∧ p.2 = true) ∧ n ≤ 0) ∧
    (drainTask obs = some DrainOutcome.exited ↔
      ∃ pre n rest, obs = pre ++ (n, false) :: rest ∧
        (∀ p ∈ pre, 0 < p.1 ∧ p.2 = true) ∧ 0 < n) := by
  induction obs with
  | nil =>
    constructor
    · constructor
      · intro h; exact absurd h (by simp [drainTask])
      · rintro ⟨pre, n, c, rest, habs, -, -⟩
        exact absurd habs (by simp)
    · constructor
      · intro h; exact absurd h (by simp [drainTask])
      · rintro ⟨pre, n, rest, habs, -, -⟩
        exact absurd habs (by simp)
  | cons hd obs ih =>
    obtain ⟨n0, c0⟩ := hd
    rcases lt_or_le 0 n0 with hn | hn
    · cases c0 with
      | true =>
        have hstep : drainTask ((n0, true) :: obs) = drainTask obs := by
          simp [drainTask, hn]
        rw [hstep]
        constructor
        · rw [ih.1]
          constructor
          · rintro ⟨pre, n, c, rest, rfl, hpre, hle⟩
            refine ⟨(n0, true) :: pre, n, c, rest, rfl, ?_, hle⟩
            intro p hp
            rcases List.mem_cons.mp hp with rfl | hp
            · exact ⟨hn, rfl⟩
            · exact hpre p hp
          · rintro ⟨pre, n, c, rest, heq, hpre, hle⟩
            cases pre with
            | nil =>
              simp only [List.nil_append, List.cons.injEq,
                Prod.mk.injEq] at heq
              obtain ⟨⟨h1, -⟩, -⟩ := heq
              omega
            | cons p0 pre =>
              simp only [List.cons_append, List.cons.injEq] at heq
              obtain ⟨-, hobs⟩ := heq
              exact ⟨pre, n, c, rest, hobs,
                fun p hp => hpre p (List.mem_cons_of_mem _ hp), hle⟩
        · rw [ih.2]
          constructor
          · rintro ⟨pre, n, rest, rfl, hpre, hpos⟩
            refine ⟨(n0, true) :: pre, n, rest, rfl, ?_, hpos⟩
            intro p hp
            rcases List.mem_cons.mp hp with rfl | hp
            · exact ⟨hn, rfl⟩
            · exact hpre p hp
          · rintro ⟨pre, n, rest, heq, hpre, hpos⟩
            cases pre with
            | nil =>
              simp only [List.nil_append, List.cons.injEq,
                Prod.mk.injEq] at heq
              obtain ⟨⟨-, h2⟩, -⟩ := heq
              exact absurd h2.symm (by simp)
            | cons p0 pre =>
              simp only [List.cons_append, List.cons.injEq] at heq
              obtain ⟨-, hobs⟩ := heq
              exact ⟨pre, n, rest, hobs,
                fun p hp => hpre p (List.mem_cons_of_mem _ hp), hpos⟩
      | false =>
        have hstep : drainTask ((n0, false) :: obs) =
            some DrainOutcome.exited := by
          simp [drainTask, hn]
        rw [hstep]
        constructor
        · constructor
          · intro h; exact absurd h (by simp)
          · rintro ⟨pre, n, c, rest, heq, hpre, hle⟩
            cases pre with
            | nil =>
              simp only [List.nil_append, List.cons.injEq,
                Prod.mk.injEq] at heq
              obtain ⟨⟨h1, -⟩, -⟩ := heq
              omega
            | cons p0 pre =>
              simp only [List.cons_append, List.cons.injEq] at heq
              obtain ⟨hp0, -⟩ := heq
              have := (hpre p0 (List.mem_cons_self p0 pre)).2
              rw [← hp0] at this
              exact absurd this (by simp)
        · constructor
          · intro _
            exact ⟨[], n0, obs, rfl, by simp, hn⟩
          · intro _
            rfl
    · have hn' : ¬ (0 < n0) := by omega
      have hstep : drainTask ((n0, c0) :: obs) =
          some DrainOutcome.destroyed := by
        simp [drainTask, hn']
      rw [hstep]
      constructor
      · constructor
        · intro _
          exact ⟨[], n0, c0, obs, rfl, by simp, hn⟩
        · intro _
          rfl
      · constructor
        · intro h; exact absurd h (by simp)
        · rintro ⟨pre, n, rest, heq, hpre, hpos⟩
          cases pre with
          | nil =>
            simp only [List.nil_append, List.cons.injEq,
              Prod.mk.injEq] at heq
            obtain ⟨⟨h1, -⟩, -⟩ := heq
            omega
          | cons p0 pre =>
            simp only [List.cons_append, List.cons.injEq] at heq
            obtain ⟨hp0, -⟩ := heq
            have := (hpre p0 (List.mem_cons_self p0 pre)).1
            rw [← hp0] at this
            omega

theorem drainTask_characterization_witness :
    drainTask [((2 : Int), true), ((0 : Int), true)] =
      some DrainOutcome.destroyed := by
  have h :=
    (drainTask_characterization [((2 : Int), true), ((0 : Int), true)]).1
  exact h.mpr ⟨[((2 : Int), true)], 0, true, [], rfl, by decide, by omega⟩

/-- Cleaning worker with no outstanding tasks, and a pool in which stage 3 of
`updateCluster` recovers it (target 1, nothing Starting or Running). -/
def wClean : Worker := ⟨"ip", 0, CLEANING⟩

def poolRecover : WorkerPool :=
  ⟨2, 1, [], [], [1], [], [], [(1, wClean)], 0, 0, 0⟩

def poolRecoverEnd : WorkerPool :=
  ⟨2, 1, [], [1], [], [], [], [(1, ⟨"ip", 0, RUNNING⟩)], 0, 0, 0⟩

/-- C5: evaluating `updateCluster` on a pool whose only worker is Cleaning
with `target = 1` (so stage 3 recovers it): the worker moves back to the
Running map, but the ready-queue stays EMPTY — `recoverWorker`
(worker.go:191-209) never re-enqueues the promoted worker, unlike the
Starting → Running transition (worker.go:181), so a recovered worker is
never dispatched to again. -/
theorem recoverWorker_no_enqueue_eval :
    updateCluster 5 poolRecover = some poolRecoverEnd ∧
    poolRecoverEnd.running = [1] ∧ poolRecoverEnd.cleaning = [] ∧
    poolRecoverEnd.queue = [] :=
  ⟨by decide, rfl, rfl, rfl⟩

/-- Pool for the auto-mode startup gap: no worker in Starting or Running,
one (stale) worker in the queue so the dispatch can proceed. -/
def poolGap : WorkerPool := ⟨2, 0, [], [], [], [], [1], [(1, wRun)], 5, 0, 0⟩

def poolGapEnd : WorkerPool :=
  ⟨2, 0, [], [], [], [], [1], [(1, wRun)], 5, 7, 1⟩

/-- C8: a dispatch in auto mode with `|Starting| + |Running| = 0` does
proceed to take a worker from the ready-queue and serve normally, but the
response carries HTTP status 500: `RunLambda` calls `WriteHeader(500)`
(worker.go:332) BEFORE checking the scaling mode, so the later
`WriteHeader(200)` is superfluous and the client sees 500. -/
theorem runLambda_auto_no_active_worker_writes_500 :
    runLambda "mock" "auto" (Except.ok "") 7 0 5 poolGap =
      some ([RespEvent.header 500, RespEvent.header 200,
        RespEvent.body "hello from 1\n"], none, poolGapEnd) ∧
    effectiveStatus [RespEvent.header 500, RespEvent.header 200,
      RespEvent.body "hello from 1\n"] = some 500 :=
  ⟨by decide, rfl⟩

/-- C10 counterexample: a dispatch with platform `mock` that arrives when no
worker is Starting or Running in manual mode answers 500 `no active worker`,
not 200 `hello from <id>` — so "for every dispatch when the platform is
mock, RunLambda responds with HTTP status 200 ..." is false as stated. -/
theorem runLambda_mock_not_always_200 :
    runLambda "mock" "manual" (Except.ok "") 3 0 1 poolZero =
      some ([RespEvent.header 500, RespEvent.body "no active worker\n"],
        none, poolZero) ∧
    effectiveStatus [RespEvent.header 500,
      RespEvent.body "no active worker\n"] ≠ some 200 :=
  ⟨by decide, by decide⟩

/-- C10 (amended): for every dispatch with platform `mock` that arrives with
at least one worker in Starting ∪ Running (so the no-active-worker 500
header is not written), `RunLambda` forwards nothing, answers status 200
with body `hello from <workerId>` naming the selected worker (the head of
the ready-queue), restores `totalTask` and every worker's `numTask`, and
records the latency sample. -/
theorem runLambda_mock_dispatch
    (scaling : String) (fwd : Except String String)
    (latency newTarget : Int) (fuel : Nat) (st : WorkerPool)
    (evs : List RespEvent) (fwdHost : Option String) (st' : WorkerPool)
    (hne : st.starting.length + st.running.length ≠ 0)
    (h : runLambda "mock" scaling fwd latency newTarget fuel st =
      some (evs, fwdHost, st')) :
    fwdHost = none ∧
    (∃ w rest, st.queue = w :: rest ∧
      evs = [RespEvent.header 200,
        RespEvent.body ("hello from " ++ Nat.repr w ++ "\n")]) ∧
    effectiveStatus evs = some 200 ∧
    st'.totalTask = st.totalTask ∧
    (∀ id w, st.heap.lookup id = some w →
      ∃ w', st'.heap.lookup id = some w' ∧ w'.numTask = w.numTask) ∧
    st'.nLatency = st.nLatency + 1 ∧
    st'.sumLatency = st.sumLatency + latency := by
  have hcnt := runLambdaCountersAux "mock" scaling fwd latency newTarget
    fuel st evs fwdHost st' h
  have hb : (st.starting.length + st.running.length == 0) = false := by
    simpa using hne
  simp only [runLambda, hb, Bool.false_and, Bool.false_eq_true,
    if_false] at h
  cases hq : st.queue with
  | nil => rw [hq] at h; exact absurd h (by simp [dispatchSelect])
  | cons w rest =>
    rw [hq] at h
    simp only [dispatchSelect] at h
    split at h
    · exact absurd h (by simp)
    · rename_i st3 hscale
      have hPres3 := runLambda_pres_afterScale hscale
      simp only [Option.some.injEq, Prod.mk.injEq] at h
      obtain ⟨hevs, hfwd, hst⟩ := h
      refine ⟨hfwd.symm, ⟨w, rest, rfl, ?_⟩, ?_, hcnt.1, hcnt.2, ?_, ?_⟩
      · rw [← hevs]
        rfl
      · rw [← hevs]
        rfl
      · rw [← hst]
        show (addTask w (-1) st3).nLatency + 1 = st.nLatency + 1
        have : st3.nLatency = st.nLatency := hPres3.2.2.1
        simpa [addTask] using this
      · rw [← hst]
        show (addTask w (-1) st3).sumLatency + latency =
          st.sumLatency + latency
        have : st3.sumLatency = st.sumLatency := hPres3.2.1
        simpa [addTask] using this

/-- All worker ids across the four state maps. -/
def allIds (st : WorkerPool) : List Nat :=
  st.starting ++ st.running ++ st.cleaning ++ st.destroying

theorem startN_spec : ∀ (k : Nat) (st : WorkerPool),
    (∀ id ∈ st.starting, id < st.nextId) →
    startN k st = { st with
      nextId := st.nextId + k
      starting := st.starting ++ List.range' st.nextId k
      heap := st.heap ++ (List.range' st.nextId k).map
        (fun i => (i, (⟨"", 0, STARTING⟩ : Worker))) } := by
  intro k
  induction k with
  | zero =>
    intro st hfresh
    simp [startN, List.range']
  | succ k ih =>
    intro st hfresh
    have hnot : st.nextId ∉ st.starting := fun hmem => by
      have := hfresh _ hmem; omega
    have hso : startOne st = { st with
        nextId := st.nextId + 1
        starting := st.starting ++ [st.nextId]
        heap := st.heap ++ [(st.nextId, ⟨"", 0, STARTING⟩)] } := by
      simp [startOne, insertKey, hnot]
    rw [show startN (k + 1) st = startN k (startOne st) from rfl, hso,
      ih _ (by
        intro id hid
        replace hid : id ∈ st.starting ++ [st.nextId] := hid
        show id < st.nextId + 1
        rcases List.mem_append.mp hid with hid | hid
        · exact Nat.lt_succ_of_lt (hfresh id hid)
        · simp only [List.mem_singleton] at hid
          omega)]
    congr 1
    · show st.nextId + 1 + k = st.nextId + (k + 1)
      omega
    · show (st.starting ++ [st.nextId]) ++ List.range' (st.nextId + 1) k =
        st.starting ++ List.range' st.nextId (k + 1)
      simp [List.range'_succ, List.append_assoc]
    · show (st.heap ++ [(st.nextId, ⟨"", 0, STARTING⟩)]) ++
        (List.range' (st.nextId + 1) k).map
          (fun i => (i, (⟨"", 0, STARTING⟩ : Worker))) =
        st.heap ++ (List.range' st.nextId (k + 1)).map
          (fun i => (i, (⟨"", 0, STARTING⟩ : Worker)))
      simp [List.range'_succ, List.append_assoc]

/-- C3: when the target exceeds the total size of the four maps, one pass of
`updateCluster` starts exactly `target − size` workers: the Starting map
gains exactly that many entries, each keyed by a freshly minted id (minted
from consecutive `nextId` values, which occur in no state map beforehand)
and holding a new worker in state STARTING; the Running, Cleaning and
Destroying maps and the ready-queue are untouched — no cleaning and no
recovery happen in that pass. -/
theorem updateCluster_scale_up (fuel : Nat) (st : WorkerPool)
    (hfresh : ∀ id ∈ allIds st, id < st.nextId)
    (hpos : 0 < scaleSizeOf st) :
    ∃ st', updateCluster (fuel + 1) st = some st' ∧
      st'.starting = st.starting ++
        List.range' st.nextId (scaleSizeOf st).toNat ∧
      st'.starting.length = st.starting.length + (scaleSizeOf st).toNat ∧
      st'.nextId = st.nextId + (scaleSizeOf st).toNat ∧
      (∀ i ∈ List.range' st.nextId (scaleSizeOf st).toNat,
        i ∉ allIds st) ∧
      st'.heap = st.heap ++ (List.range' st.nextId (scaleSizeOf st).toNat).map
        (fun i => (i, (⟨"", 0, STARTING⟩ : Worker))) ∧
      st'.running = st.running ∧ st'.cleaning = st.cleaning ∧
      st'.destroying = st.destroying ∧ st'.queue = st.queue := by
  have hs := startN_spec (scaleSizeOf st).toNat st
    (fun id hid => hfresh id (by simp [allIds, List.mem_append, hid]))
  refine ⟨startN (scaleSizeOf st).toNat st, ?_, ?_, ?_, ?_, ?_, ?_,
    ?_, ?_, ?_, ?_⟩
  · rw [show updateCluster (fuel + 1) st =
      if 0 < scaleSizeOf st then some (startN (scaleSizeOf st).toNat st)
      else
        if 0 < toBeCleanOf st then
          match cleanN (toBeCleanOf st).toNat st with
          | none => none
          | some st1 => updateCluster fuel st1
        else
          if 0 < toBeRecoverOf st then
            recoverLoop fuel st.cleaning (toBeRecoverOf st) st
          else some st from rfl, if_pos hpos]
  · rw [hs]
  · rw [hs]
    simp
  · rw [hs]
  · intro i hi hmem
    have h1 := hfresh i hmem
    have h2 := (List.mem_range'_1.mp hi).1
    omega
  · rw [hs]
  · rw [hs]
  · rw [hs]
  · rw [hs]
  · rw [hs]

/-- Empty pool with target 2, for the C3 witness. -/
def poolGrow : WorkerPool := ⟨1, 2, [], [], [], [], [], [], 0, 0, 0⟩

def poolGrown : WorkerPool :=
  ⟨3, 2, [1, 2], [], [], [], [],
    [(1, ⟨"", 0, STARTING⟩), (2, ⟨"", 0, STARTING⟩)], 0, 0, 0⟩

theorem updateCluster_scale_up_witness :
    updateCluster 1 poolGrow = some poolGrown ∧
    poolGrown.starting = poolGrow.starting ++
      List.range' poolGrow.nextId (scaleSizeOf poolGrow).toNat ∧
    poolGrown.queue = poolGrow.queue := by
  obtain ⟨st', hu, hstart, -, -, -, -, -, -, -, hq⟩ :=
    updateCluster_scale_up 0 poolGrow (by decide) (by decide)
  have hst' : st' = poolGrown := by
    have h2 : updateCluster 1 poolGrow = some poolGrown := by decide
    rw [hu] at h2
    exact Option.some.inj h2
  subst hst'
  exact ⟨hu, hstart, hq⟩

def poolAEnd2 : WorkerPool :=
  ⟨4, 1, [], [1, 2, 3], [], [], [2, 3, 1],
    [(1, wRun), (2, wRun), (3, wRun)], 5, 9, 1⟩

theorem runLambda_mock_dispatch_witness :
    (∃ w rest, poolA.queue = w :: rest ∧
      ([RespEvent.header 200, RespEvent.body "hello from 1\n"] :
        List RespEvent) = [RespEvent.header 200,
        RespEvent.body ("hello from " ++ Nat.repr w ++ "\n")]) ∧
    poolAEnd2.totalTask = poolA.totalTask ∧
    poolAEnd2.nLatency = poolA.nLatency + 1 := by
  have h := runLambda_mock_dispatch "manual" (Except.ok "") 9 0 5 poolA
    [RespEvent.header 200, RespEvent.body "hello from 1\n"] none poolAEnd2
    (by decide) (by decide)
  exact ⟨h.2.1, h.2.2.2.1, h.2.2.2.2.2.1⟩

theorem foldl_add_taskOf (st : WorkerPool) :
    ∀ (l : List Nat) (a : Int),
      l.foldl (fun b id => b + taskOf st id) a = a + (l.map (taskOf st)).sum := by
  intro l
  induction l with
  | nil => intro a; simp
  | cons x l ih =>
    intro a
    simp only [List.foldl_cons, List.map_cons, List.sum_cons, ih]
    ring

theorem upsert_lookup (k : Nat) (v : Int) :
    ∀ (acc : List (Nat × Int)) (id : Nat),
      (upsert k v acc).lookup id = if id = k then some v else acc.lookup id := by
  intro acc
  induction acc with
  | nil =>
    intro id
    by_cases hik : id = k
    · subst hik; simp [upsert, lookup_cons_eq]
    · rw [show upsert k v [] = [(k, v)] from rfl, lookup_cons_ne hik,
        if_neg hik]
  | cons kv t ih =>
    obtain ⟨k1, v1⟩ := kv
    intro id
    by_cases h1k : k1 = k
    · subst h1k
      rw [show upsert k1 v ((k1, v1) :: t) = (k1, v) :: t from by
        simp [upsert]]
      by_cases hik : id = k1
      · subst hik; simp [lookup_cons_eq]
      · rw [lookup_cons_ne hik, if_neg hik, lookup_cons_ne hik]
    · rw [show upsert k v ((k1, v1) :: t) = (k1, v1) :: upsert k v t from by
        simp [upsert, h1k]]
      by_cases hik : id = k1
      · subst hik
        rw [lookup_cons_eq, if_neg (fun h => h1k h), lookup_cons_eq]
      · rw [lookup_cons_ne hik, ih id, lookup_cons_ne hik]

theorem foldl_upsert_lookup (f : Nat → Int) :
    ∀ (l : List Nat) (acc : List (Nat × Int)) (id : Nat),
      (l.foldl (fun a k => upsert k (f k) a) acc).lookup id =
        if id ∈ l then some (f id) else acc.lookup id := by
  intro l
  induction l with
  | nil => intro acc id; simp
  | cons k t ih =>
    intro acc id
    simp only [List.foldl_cons]
    rw [ih]
    by_cases hit : id ∈ t
    · rw [if_pos hit, if_pos (List.mem_cons_of_mem _ hit)]
    · rw [if_neg hit, upsert_lookup]
      by_cases hik : id = k
      · subst hik
        rw [if_pos rfl, if_pos (List.mem_cons_self _ _)]
      · rw [if_neg hik, if_neg (by
          intro hmem
          rcases List.mem_cons.mp hmem with h | h
          · exact hik h
          · exact hit h)]

/-- C9: `StatusTasks` reports `total tasks` equal to the global in-flight
counter `totalTask`; `task/worker` equal to the sum of `numTask` over the
Running map divided (truncated integer division) by `|Starting| + |Running|`,
and `0` when `|Starting| + |Running| = 0`; and maps every worker id present
in any of the four state maps to that worker's `numTask`. -/
theorem StatusTasks_spec (st : WorkerPool) :
    (StatusTasks st).totalTasks = st.totalTask ∧
    (StatusTasks st).taskPerWorker =
      (if st.starting.length + st.running.length = 0 then 0
       else Int.tdiv ((st.running.map (taskOf st)).sum)
         ((st.starting.length + st.running.length : Nat) : Int)) ∧
    ∀ id, id ∈ st.starting ++ st.running ++ st.cleaning ++ st.destroying →
      (StatusTasks st).perWorker.lookup id = some (taskOf st id) := by
  refine ⟨rfl, ?_, ?_⟩
  · show (if 0 < st.running.length + st.starting.length then
        Int.tdiv (st.running.foldl (fun a id => a + taskOf st id) 0)
          ((st.running.length + st.starting.length : Nat) : Int)
      else 0) = _
    by_cases h0 : st.starting.length + st.running.length = 0
    · rw [if_pos h0, if_neg (by omega)]
    · rw [if_neg h0, if_pos (by omega), foldl_add_taskOf, zero_add,
        Nat.add_comm st.running.length st.starting.length]
  · intro id hid
    show ((st.starting ++ st.running ++ st.cleaning ++ st.destroying).foldl
      (fun acc i => upsert i (taskOf st i) acc) []).lookup id = _
    rw [foldl_upsert_lookup, if_pos hid]

theorem mem_insertKey_self (k : Nat) (l : List Nat) : k ∈ insertKey k l := by
  by_cases hk : k ∈ l <;> simp [insertKey, hk]

theorem mem_insertKey_iff {v k : Nat} (h : v ≠ k) (l : List Nat) :
    v ∈ insertKey k l ↔ v ∈ l := by
  by_cases hk : k ∈ l <;> simp [insertKey, hk, h]

theorem not_mem_removeKey_self (k : Nat) (l : List Nat) :
    k ∉ removeKey k l := by
  simp [removeKey]

theorem mem_removeKey_iff {v k : Nat} (h : v ≠ k) (l : List Nat) :
    v ∈ removeKey k l ↔ v ∈ l := by
  simp [removeKey, h]

theorem setWorker_lookup_ne {v j : Nat} (h : v ≠ j) (f : Worker → Worker)
    (hp : List (Nat × Worker)) :
    (setWorker j f hp).lookup v = hp.lookup v := by
  rw [setWorker_lookup]
  cases hp.lookup v <;> simp [h]

theorem cleanN_spec : ∀ (n : Nat) (st : WorkerPool),
    n ≤ st.queue.length →
    ∃ st1, cleanN n st = some st1 ∧
      st1.queue = st.queue.drop n ∧
      st1.starting = st.starting ∧
      st1.destroying = st.destroying ∧
      st1.target = st.target ∧
      st1.nextId = st.nextId ∧
      (∀ w, w ∈ st.queue.take n → w ∈ st1.cleaning ∧ w ∉ st1.running) ∧
      (∀ w, w ∉ st.queue.take n →
        ((w ∈ st1.cleaning ↔ w ∈ st.cleaning) ∧
         (w ∈ st1.running ↔ w ∈ st.running) ∧
         st1.heap.lookup w = st.heap.lookup w)) ∧
      (∀ w r, w ∈ st.queue.take n → st.heap.lookup w = some r →
        ∃ r', st1.heap.lookup w = some r' ∧ r'.state = CLEANING ∧
          r'.numTask = r.numTask) := by
  intro n
  induction n with
  | zero =>
    intro st _
    exact ⟨st, rfl, rfl, rfl, rfl, rfl, rfl,
      fun w hw => absurd hw (by simp),
      fun w _ => ⟨Iff.rfl, Iff.rfl, rfl⟩,
      fun w r hw _ => absurd hw (by simp)⟩
  | succ n ih =>
    intro st hlen
    obtain ⟨w, rest, hq⟩ : ∃ w rest, st.queue = w :: rest := by
      cases hqq : st.queue with
      | nil => rw [hqq] at hlen; simp at hlen
      | cons a b => exact ⟨a, b, rfl⟩
    have hlen' : n ≤ rest.length := by
      rw [hq] at hlen
      simpa using hlen
    obtain ⟨st1, hc1, hq1, hs1, hd1, ht1, hn1, htaken, hinv, hheap⟩ :=
      ih (cleanMove w { st with queue := rest }) hlen'
    have hstep : cleanN (n + 1) st =
        cleanN n (cleanMove w { st with queue := rest }) := by
      show (match st.queue with
        | [] => none
        | w :: rest => cleanN n (cleanMove w { st with queue := rest })) =
        _
      rw [hq]
    have hmc : (cleanMove w { st with queue := rest }).cleaning =
      insertKey w st.cleaning := rfl
    have hmr : (cleanMove w { st with queue := rest }).running =
      removeKey w st.running := rfl
    have hmh : (cleanMove w { st with queue := rest }).heap =
      setWorker w (fun r => { r with state := CLEANING }) st.heap := rfl
    have htk : st.queue.take (n + 1) = w :: rest.take n := by
      rw [hq]
      rfl
    have hdk : st.queue.drop (n + 1) = rest.drop n := by
      rw [hq]
      rfl
    refine ⟨st1, hstep ▸ hc1, ?_, hs1, hd1, ht1, hn1, ?_, ?_, ?_⟩
    · rw [hq1, hdk]
      rfl
    · intro v hv
      rw [htk] at hv
      rcases List.mem_cons.mp hv with rfl | hv
      · constructor
        · by_cases hwt : v ∈ rest.take n
          · exact (htaken v (by rw [show (cleanMove v { st with
              queue := rest }).queue = rest from rfl]; exact hwt)).1
          · have hiff := (hinv v (by
              rw [show (cleanMove v { st with queue := rest }).queue =
                rest from rfl]; exact hwt)).1
            rw [hiff, hmc]
            exact mem_insertKey_self v st.cleaning
        · by_cases hwt : v ∈ rest.take n
          · exact (htaken v (by rw [show (cleanMove v { st with
              queue := rest }).queue = rest from rfl]; exact hwt)).2
          · have hiff := (hinv v (by
              rw [show (cleanMove v { st with queue := rest }).queue =
                rest from rfl]; exact hwt)).2.1
            rw [hiff, hmr]
            exact not_mem_removeKey_self v st.running
      · exact htaken v (by rw [show (cleanMove w { st with
          queue := rest }).queue = rest from rfl]; exact hv)
    · intro v hv
      rw [htk] at hv
      have hvw : v ≠ w := fun h => hv (h ▸ List.mem_cons_self _ _)
      have hvt : v ∉ rest.take n := fun h => hv (List.mem_cons_of_mem _ h)
      obtain ⟨hic, hir, hih⟩ := hinv v (by
        rw [show (cleanMove w { st with queue := rest }).queue =
          rest from rfl]; exact hvt)
      refine ⟨?_, ?_, ?_⟩
      · rw [hic, hmc, mem_insertKey_iff hvw]
      · rw [hir, hmr, mem_removeKey_iff hvw]
      · rw [hih, hmh, setWorker_lookup_ne hvw]
    · intro v r hv hr
      rw [htk] at hv
      have hlook : (cleanMove w { st with queue := rest }).heap.lookup v =
          some (if v = w then { r with state := CLEANING } else r) := by
        rw [hmh, setWorker_lookup, hr, Option.map_some']
      rcases List.mem_cons.mp hv with rfl | hv
      · rw [if_pos rfl] at hlook
        by_cases hwt : v ∈ rest.take n
        · obtain ⟨r', hr', hstate, hnum⟩ := hheap v _ (by
            rw [show (cleanMove v { st with queue := rest }).queue =
              rest from rfl]; exact hwt) hlook
          exact ⟨r', hr', hstate, hnum⟩
        · have hih := (hinv v (by
            rw [show (cleanMove v { st with queue := rest }).queue =
              rest from rfl]; exact hwt)).2.2
          rw [hlook] at hih
          exact ⟨{ r with state := CLEANING }, hih, rfl, rfl⟩
      · obtain ⟨r', hr', hstate, hnum⟩ := hheap v _ (by
          rw [show (cleanMove w { st with queue := rest }).queue =
            rest from rfl]; exact hv) hlook
        refine ⟨r', hr', hstate, ?_⟩
        rw [hnum]
        by_cases hvw : v = w <;> simp [hvw]

/-- C4: when `scale_size ≤ 0` and
`to_clean = −scale_size − |Cleaning| − |Destroying| − |Starting|` is
positive (and the ready-queue holds enough workers for the dequeues not to
block), one pass of `updateCluster` dequeues exactly the first `to_clean`
workers of the ready-queue, transitions each of them from the Running map to
the Cleaning map (setting its state to CLEANING, keeping its task count),
transitions no other worker into Cleaning, and then invokes reconciliation
again on the resulting state. -/
theorem updateCluster_clean_stage (fuel : Nat) (st : WorkerPool)
    (hscale : ¬ 0 < scaleSizeOf st)
    (hclean : 0 < toBeCleanOf st)
    (hqlen : (toBeCleanOf st).toNat ≤ st.queue.length) :
    ∃ st1, cleanN (toBeCleanOf st).toNat st = some st1 ∧
      updateCluster (fuel + 1) st = updateCluster fuel st1 ∧
      st1.queue = st.queue.drop (toBeCleanOf st).toNat ∧
      (∀ w ∈ st.queue.take (toBeCleanOf st).toNat,
        w ∈ st1.cleaning ∧ w ∉ st1.running) ∧
      (∀ w, w ∉ st.queue.take (toBeCleanOf st).toNat →
        (w ∈ st1.cleaning ↔ w ∈ st.cleaning)) ∧
      (∀ w r, w ∈ st.queue.take (toBeCleanOf st).toNat →
        st.heap.lookup w = some r →
        ∃ r', st1.heap.lookup w = some r' ∧ r'.state = CLEANING ∧
          r'.numTask = r.numTask) := by
  obtain ⟨st1, hc, hq, -, -, -, -, htaken, hinv, hheap⟩ :=
    cleanN_spec (toBeCleanOf st).toNat st hqlen
  refine ⟨st1, hc, ?_, hq, htaken, fun w hw => (hinv w hw).1, hheap⟩
  rw [show updateCluster (fuel + 1) st =
    if 0 < scaleSizeOf st then some (startN (scaleSizeOf st).toNat st)
    else
      if 0 < toBeCleanOf st then
        match cleanN (toBeCleanOf st).toNat st with
        | none => none
        | some st1 => updateCluster fuel st1
      else
        if 0 < toBeRecoverOf st then
          recoverLoop fuel st.cleaning (toBeRecoverOf st) st
        else some st from rfl, if_neg hscale, if_pos hclean, hc]

/-- Pool `poolA` after its first two queue entries have been cleaned. -/
def poolAClean : WorkerPool :=
  ⟨4, 1, [], [3], [1, 2], [], [3],
    [(1, ⟨"ip", 2, CLEANING⟩), (2, ⟨"ip", 2, CLEANING⟩), (3, wRun)],
    5, 0, 0⟩

theorem updateCluster_clean_stage_witness :
    updateCluster 5 poolA = updateCluster 4 poolAClean ∧
    1 ∈ poolAClean.cleaning ∧ 1 ∉ poolAClean.running ∧
    poolAClean.queue = poolA.queue.drop (toBeCleanOf poolA).toNat := by
  obtain ⟨st1, hc, hu, hq, htaken, -, -⟩ :=
    updateCluster_clean_stage 4 poolA (by decide) (by decide) (by decide)
  have hst1 : st1 = poolAClean := by
    have h2 : cleanN (toBeCleanOf poolA).toNat poolA = some poolAClean := by
      decide
    rw [hc] at h2
    exact Option.some.inj h2
  subst hst1
  have ht := htaken 1 (by decide)
  exact ⟨hu, ht.1, ht.2, hq⟩

theorem StatusTasks_spec_witness :
    (StatusTasks poolA).totalTasks = poolA.totalTask ∧
    (StatusTasks poolA).perWorker.lookup 2 = some (taskOf poolA 2) := by
  have h := StatusTasks_spec poolA
  exact ⟨h.1, h.2.2 2 (by decide)⟩

end OpenLambda
